import Mathlib

/-!
A verification development for the task-store module of a CLI task manager
(`tasks.py`).  The store keeps a list of tasks in a JSON file; every public
operation loads the collection, works on it in memory, and (for mutating
operations) writes the whole collection back.

The embedding below models the in-memory collection as a `List Task` and each
store operation as a pure function on it.  File I/O is abstracted away: the
loaded collection is the function's input, the saved collection its output,
and a `Bool` component records whether the operation called `save_tasks`
(i.e. rewrote the backing file).  Python values that may be `None` are
modelled as `Option`; Python code that can raise an uncaught exception is
modelled in `Except String`.
-/

namespace Tasks

/-- A task record, mirroring class `Task` of `tasks.py` together with the
fields as they can appear after `load_tasks` rebuilt them from JSON:
`id`, `created_at`, `started_at`, `finished_at` are read with `dict.get`
and may therefore be `None`. -/
structure Task where
  id : Option Int
  title : String
  desc : String
  status : String
  tags : List String
  created_at : Option String
  started_at : Option String
  finished_at : Option String
deriving Repr, DecidableEq

/-- A raw JSON record of the backing file: every key may be absent. -/
structure TaskData where
  id : Option Int
  title : Option String
  desc : Option String
  status : Option String
  tags : Option (List String)
  created_at : Option String
  started_at : Option String
  finished_at : Option String
deriving Repr, DecidableEq

/-- Rebuilding one task from a JSON record, as the loop body of `load_tasks`
does: `task_data['title']` and `task_data['desc']` raise `KeyError` when
absent (caught by the surrounding `except`), all other keys are read with
`.get` and default to `None` (`status` defaults to `'todo'`, `tags` to the
empty list via the constructor's truthiness test). -/
def buildTask (d : TaskData) : Except String Task :=
  match d.title, d.desc with
  | some title, some desc =>
      .ok { id := d.id, title := title, desc := desc,
            status := d.status.getD "todo",
            tags := match d.tags with | some tg => tg | none => [],
            created_at := d.created_at, started_at := d.started_at,
            finished_at := d.finished_at }
  | _, _ => .error "KeyError"

/-- Auxiliary recursion for `load_tasks`: rebuild every record. -/
def buildTasks : List TaskData → Except String (List Task)
  | [] => .ok []
  | d :: ds =>
      match buildTask d, buildTasks ds with
      | .ok t, .ok ts => .ok (t :: ts)
      | .error e, _ => .error e
      | _, .error e => .error e

/-- `load_tasks` applied to an already-parsed JSON document: the rebuilding
loop runs under `try`, and any exception is caught, a diagnostic printed and
the empty collection returned.  (An absent file and a JSON parse error also
yield the empty collection; both happen before this loop and are outside the
model.) -/
def load_tasks (data : List TaskData) : List Task :=
  match buildTasks data with
  | .ok ts => ts
  | .error _ => []

/-- One step of Python's `max` over `Option Int` values: comparing `None`
with anything by `>` raises `TypeError`. -/
def pyMaxFold (acc : Option Int) : List (Option Int) → Except String (Option Int)
  | [] => .ok acc
  | x :: xs =>
      match x, acc with
      | some a, some b => pyMaxFold (some (if b < a then a else b)) xs
      | _, _ => .error "TypeError: not supported between instances of NoneType and int"

/-- Python's `max(iterable)`: the first element is the initial candidate and
is never itself compared when it is the only one, so `max([None])` succeeds
and returns `None`. -/
def pyMax : List (Option Int) → Except String (Option Int)
  | [] => .error "ValueError: max() arg is an empty sequence"
  | x :: xs => pyMaxFold x xs

/-- The `highest_id` computation of `new_task`: `0` for an empty collection,
otherwise `max(task.id for task in tasks)`; a `None` result is reported here
as the `TypeError` that `highest_id + 1` would raise. -/
def highestId (tasks : List Task) : Except String Int :=
  if tasks.isEmpty then .ok 0
  else
    match pyMax (tasks.map (·.id)) with
    | .error e => .error e
    | .ok (some v) => .ok v
    | .ok none => .error "TypeError: unsupported operand type(s) for +: NoneType and int"

/-- `new_task(title, desc, tags)` on the loaded collection `tasks` at time
`now`: computes `highest_id + 1`, appends the fresh task and saves.  It has
no `try`/`except`, so a `TypeError` from the id computation propagates. -/
def new_task (title desc : String) (tags : List String) (now : String)
    (tasks : List Task) : Except String (List Task) :=
  match highestId tasks with
  | .error e => .error e
  | .ok h =>
      .ok (tasks ++ [{ id := some (h + 1), title := title, desc := desc,
                       status := "todo", tags := tags, created_at := some now,
                       started_at := none, finished_at := none }])

/-- `view_task(task_id)`: rejects non-positive ids, otherwise linear scan for
the first exact id match; `None` when absent. -/
def view_task (task_id : Int) (tasks : List Task) : Option Task :=
  if task_id ≤ 0 then none
  else tasks.find? (fun t => t.id == some task_id)

/-- Removal of the first task whose id matches, as `tasks.remove(task_to_delete)`
does for the object found by the scan in `delete_task`. -/
def removeFirstById (task_id : Int) : List Task → List Task
  | [] => []
  | t :: ts => if t.id == some task_id then ts else t :: removeFirstById task_id ts

/-- `delete_task(task_id)` on the loaded collection.  Result components:
the collection as left on disk, whether `save_tasks` was called (it is called
exactly when a match was found; otherwise the file is not rewritten), and the
Python return value — the function body has no `return` statement, so it
returns `None` on both the "deleted" and the "not found" path (each path only
prints a message). -/
def delete_task (task_id : Int) (tasks : List Task) :
    List Task × Bool × Option Bool :=
  match tasks.find? (fun t => t.id == some task_id) with
  | some _ => (removeFirstById task_id tasks, true, none)
  | none => (tasks, false, none)

/-- The scan loop of `update_status`: at the first id match it mutates the
task according to `status` (`'start'` and `'finish'` change status and stamp
a timestamp; any other string changes nothing), saves the whole collection
and returns `True`; falling off the loop returns `False` without saving.
Result components as in `delete_task`, with the Python return value last. -/
def update_status_go (task_id : Int) (status now : String) :
    List Task → List Task × Bool × Option Bool
  | [] => ([], false, some false)
  | t :: ts =>
      if t.id == some task_id then
        let t' :=
          if status = "start" then
            { t with status := "in_progress", started_at := some now }
          else if status = "finish" then
            { t with status := "done", finished_at := some now }
          else t
        (t' :: ts, true, some true)
      else
        let r := update_status_go task_id status now ts
        (t :: r.1, r.2.1, r.2.2)

/-- `update_status(task_id, status)` at time `now`: a non-positive id is
rejected up front with return value `None` and no store access; otherwise the
scan loop runs (its body raises nothing in this model, so the broad `except`
of the source is never taken). -/
def update_status (task_id : Int) (status now : String) (tasks : List Task) :
    List Task × Bool × Option Bool :=
  if task_id ≤ 0 then (tasks, false, none)
  else update_status_go task_id status now tasks

/-- Python's lexicographic `<=` on strings, by code point, modelled on the
underlying character lists. -/
def charListLe : List Char → List Char → Bool
  | [], _ => true
  | _ :: _, [] => false
  | a :: as, b :: bs =>
      if a < b then true else if b < a then false else charListLe as bs

/-- String comparison used by the sort stage of `list_tasks`. -/
def pyStrLe (a b : String) : Bool := charListLe a.toList b.toList

/-- The sort keys `list_tasks` accepts; the CLI restricts `--sort` to exactly
these three attribute names. -/
inductive SortKey
  | created_at
  | started_at
  | finished_at
deriving Repr, DecidableEq

/-- `getattr(task, sort)` for the three admissible sort keys. -/
def Task.attr (k : SortKey) (t : Task) : Option String :=
  match k with
  | .created_at => t.created_at
  | .started_at => t.started_at
  | .finished_at => t.finished_at

/-- The `sort_key` closure of `list_tasks`: a `None` timestamp is replaced by
the fixed sentinel `'0000-00-00 00:00'`, which compares below any real
timestamp. -/
def sort_key (k : SortKey) (t : Task) : String :=
  match Task.attr k t with
  | none => "0000-00-00 00:00"
  | some v => v

/-- A `for` loop that appends the elements satisfying `p` to a fresh list, as
each filter stage of `list_tasks` does. -/
def filterLoop (p : Task → Bool) (tasks : List Task) : List Task :=
  tasks.foldl (fun acc t => if p t then acc ++ [t] else acc) []

/-- Python's substring test `needle in hay`, on character lists. -/
def isSubChars (n : List Char) : List Char → Bool
  | [] => n.isEmpty
  | c :: cs => n.isPrefixOf (c :: cs) || isSubChars n cs

/-- `search in task.title` — substring containment. -/
def strContains (needle hay : String) : Bool :=
  isSubChars needle.toList hay.toList

/-- `list_tasks(status, tag, sort, search)` on the loaded collection.  Each
stage is guarded by Python truthiness (`None` and the empty string skip the
stage), applied in source order: status filter, tag filter, search filter,
then an in-place stable sort by `sort_key`.  `list.sort` is stable, which
`List.insertionSort` with a `≤`-shaped relation reproduces.  The returned
records (`vars(task)`) carry exactly the task fields, so the result is
modelled as the task list itself. -/
def list_tasks (status tag : Option String) (sort : Option SortKey)
    (search : Option String) (tasks : List Task) : List Task :=
  let t1 := match status with
    | some s => if s = "" then tasks else filterLoop (fun t => t.status == s) tasks
    | none => tasks
  let t2 := match tag with
    | some g => if g = "" then t1 else filterLoop (fun t => t.tags.contains g) t1
    | none => t1
  let t3 := match search with
    | some q => if q = "" then t2
        else filterLoop (fun t => strContains q t.title || strContains q t.desc) t2
    | none => t2
  match sort with
  | some k => List.insertionSort (fun a b => pyStrLe (sort_key k a) (sort_key k b) = true) t3
  | none => t3

/-- A store operation of a session, for reasoning about operation sequences:
a creation (with its title, description, tags and timestamp) or a deletion. -/
inductive Op
  | create (title desc : String) (tags : List String) (now : String)
  | delete (task_id : Int)

/-- One operation applied to the current persisted collection. -/
def stepOp (s : List Task) : Op → Except String (List Task)
  | .create t d tg n => new_task t d tg n s
  | .delete i => .ok (delete_task i s).1

/-- A whole session: the operations run in order against the store, each one
reloading the collection the previous one saved. -/
def runOps (s : List Task) : List Op → Except String (List Task)
  | [] => .ok s
  | op :: ops =>
      match stepOp s op with
      | .error e => .error e
      | .ok s' => runOps s' ops

/-- The ids assigned by the `create` operations of a session, in order (the
id of the task each `new_task` call appended). -/
def assignedIds (s : List Task) : List Op → Except String (List (Option Int))
  | [] => .ok []
  | (Op.create t d tg n) :: ops =>
      match new_task t d tg n s with
      | .error e => .error e
      | .ok s' =>
          match assignedIds s' ops with
          | .error e => .error e
          | .ok ids => .ok ((s'.getLast?.elim none Task.id) :: ids)
  | (Op.delete i) :: ops => assignedIds (delete_task i s).1 ops

/-- Recognizer for `create` operations. -/
def Op.isCreate : Op → Bool
  | .create _ _ _ _ => true
  | .delete _ => false

/-- The id list `[1, 2, …, n]` that an uninterrupted run of `n` creations
produces. -/
def idsUpTo : Nat → List Int
  | 0 => []
  | n + 1 => idsUpTo n ++ [(n : Int) + 1]

/-- The store invariant on ids: every task has a non-null id and the ids are
strictly increasing in collection order. -/
def IdsOk (s : List Task) : Prop :=
  ∃ l : List Int, s.map Task.id = l.map some ∧ l.Pairwise (· < ·)

/-- A sample completed task, for concrete evaluations. -/
def sampleDone : Task :=
  { id := some 1, title := "A", desc := "milk", status := "done",
    tags := ["errand"], created_at := some "2024-01-01 10:00",
    started_at := some "2024-01-01 10:05", finished_at := some "2024-01-01 10:09" }

/-- A sample fresh task whose optional timestamps are unset, for concrete
evaluations. -/
def sampleTodo : Task :=
  { id := some 2, title := "B", desc := "report", status := "todo",
    tags := ["work"], created_at := none, started_at := none,
    finished_at := none }

/-- A task as loaded from a record without an `id` key. -/
def nullIdTask : Task :=
  { id := none, title := "X", desc := "", status := "todo", tags := [],
    created_at := none, started_at := none, finished_at := none }

/-! ### Facts about Python's `max` over the loaded ids -/

lemma pyMaxFold_map_some (xs : List Int) (a : Int) :
    pyMaxFold (some a) (xs.map some) =
      .ok (some (xs.foldl (fun b x => if b < x then x else b) a)) := by
  induction xs generalizing a with
  | nil => rfl
  | cons x xs ih =>
      simp only [List.map_cons, pyMaxFold, List.foldl_cons]
      exact ih (if a < x then x else a)

lemma le_foldl_pymax (xs : List Int) (a : Int) :
    a ≤ xs.foldl (fun b x => if b < x then x else b) a := by
  induction xs generalizing a with
  | nil => simp
  | cons x xs ih =>
      simp only [List.foldl_cons]
      refine le_trans ?_ (ih (if a < x then x else a))
      split <;> omega

lemma mem_le_foldl_pymax (xs : List Int) (a y : Int) (hy : y ∈ xs) :
    y ≤ xs.foldl (fun b x => if b < x then x else b) a := by
  induction xs generalizing a with
  | nil => cases hy
  | cons x xs ih =>
      simp only [List.foldl_cons]
      rcases List.mem_cons.mp hy with rfl | hy'
      · refine le_trans ?_ (le_foldl_pymax xs _)
        split <;> omega
      · exact ih _ hy'

lemma foldl_pymax_mem (xs : List Int) (a : Int) :
    xs.foldl (fun b x => if b < x then x else b) a ∈ a :: xs := by
  induction xs generalizing a with
  | nil => simp
  | cons x xs ih =>
      simp only [List.foldl_cons]
      rcases List.mem_cons.mp (ih (if a < x then x else a)) with h' | h'
      · rw [h']
        split <;> simp
      · simp [h']

lemma pyMax_spec (l : List Int) (hne : l ≠ []) :
    ∃ m, pyMax (l.map some) = .ok (some m) ∧ m ∈ l ∧ ∀ x ∈ l, x ≤ m := by
  cases l with
  | nil => exact absurd rfl hne
  | cons a xs =>
      refine ⟨xs.foldl (fun b x => if b < x then x else b) a, ?_, ?_, ?_⟩
      · simpa only [List.map_cons, pyMax] using pyMaxFold_map_some xs a
      · exact foldl_pymax_mem xs a
      · intro x hx
        rcases List.mem_cons.mp hx with rfl | hx'
        · exact le_foldl_pymax xs x
        · exact mem_le_foldl_pymax xs a x hx'

lemma highestId_spec (tasks : List Task) (l : List Int)
    (hmap : tasks.map Task.id = l.map some) (hne : l ≠ []) :
    ∃ m, highestId tasks = .ok m ∧ m ∈ l ∧ ∀ x ∈ l, x ≤ m := by
  have hT : tasks ≠ [] := by
    intro h
    subst h
    exact hne (by simpa using hmap.symm)
  obtain ⟨m, hok, hmem, hub⟩ := pyMax_spec l hne
  refine ⟨m, ?_, hmem, hub⟩
  unfold highestId
  rw [if_neg (by simpa [List.isEmpty_iff] using hT), hmap, hok]

lemma map_id_all_some (tasks : List Task) (h : ∀ t ∈ tasks, t.id ≠ none) :
    ∃ l : List Int, tasks.map Task.id = l.map some := by
  induction tasks with
  | nil => exact ⟨[], rfl⟩
  | cons t ts ih =>
      obtain ⟨l, hl⟩ := ih (fun x hx => h x (List.mem_cons_of_mem _ hx))
      obtain ⟨v, hv⟩ := Option.ne_none_iff_exists'.mp (h t (List.mem_cons_self t ts))
      exact ⟨v :: l, by simp [hv, hl]⟩

/-! ### Facts about deletion -/

lemma removeFirstById_sublist (i : Int) (s : List Task) :
    (removeFirstById i s).Sublist s := by
  induction s with
  | nil => simp [removeFirstById]
  | cons t ts ih =>
      by_cases h : (t.id == some i) = true
      · simpa only [removeFirstById, if_pos h] using List.sublist_cons_self t ts
      · simpa only [removeFirstById, if_neg h] using List.Sublist.cons₂ t ih

lemma removeFirstById_map_some (i : Int) (s : List Task) (l : List Int)
    (hmap : s.map Task.id = l.map some) :
    ∃ l' : List Int,
      (removeFirstById i s).map Task.id = l'.map some ∧ l'.Sublist l := by
  induction s generalizing l with
  | nil =>
      have hl : l = [] := by simpa using hmap.symm
      subst hl
      exact ⟨[], by simp [removeFirstById], List.Sublist.refl []⟩
  | cons t ts ih =>
      cases l with
      | nil => simp at hmap
      | cons b bs =>
          simp only [List.map_cons, List.cons.injEq] at hmap
          obtain ⟨hid, hrest⟩ := hmap
          by_cases h : (t.id == some i) = true
          · refine ⟨bs, ?_, List.sublist_cons_self b bs⟩
            simpa only [removeFirstById, if_pos h] using hrest
          · obtain ⟨l', hl', hsub⟩ := ih bs hrest
            refine ⟨b :: l', ?_, List.Sublist.cons₂ b hsub⟩
            simp only [removeFirstById, if_neg h]
            simp only [List.map_cons, hid, hl']

lemma find?_id_append (i : Int) (l₁ l₂ : List Task) (m : Task)
    (h1 : ∀ t ∈ l₁, t.id ≠ some i) (hm : m.id = some i) :
    (l₁ ++ m :: l₂).find? (fun t => t.id == some i) = some m := by
  induction l₁ with
  | nil =>
      simp only [List.nil_append]
      exact @List.find?_cons_of_pos _ (fun t => t.id == some i) m l₂ (by simp [hm])
  | cons a l ih =>
      have ha : ¬((a.id == some i) = true) := by
        simpa using h1 a (List.mem_cons_self a l)
      simp only [List.cons_append]
      rw [@List.find?_cons_of_neg _ (fun t => t.id == some i) a (l ++ m :: l₂) ha]
      exact ih (fun t ht => h1 t (List.mem_cons_of_mem a ht))

lemma removeFirstById_append (i : Int) (l₁ l₂ : List Task) (m : Task)
    (h1 : ∀ t ∈ l₁, t.id ≠ some i) (hm : m.id = some i) :
    removeFirstById i (l₁ ++ m :: l₂) = l₁ ++ l₂ := by
  induction l₁ with
  | nil => simp [removeFirstById, hm]
  | cons a l ih =>
      have ha : ¬((a.id == some i) = true) := by
        simpa using h1 a (List.mem_cons_self a l)
      simp only [List.cons_append, removeFirstById, if_neg ha, List.cons.injEq,
        true_and]
      exact ih (fun t ht => h1 t (List.mem_cons_of_mem a ht))

/-! ### Facts about the status-transition scan -/

lemma update_status_go_not_found (i : Int) (st now : String) (ts : List Task)
    (h : ∀ t ∈ ts, t.id ≠ some i) :
    update_status_go i st now ts = (ts, false, some false) := by
  induction ts with
  | nil => rfl
  | cons t ts ih =>
      have ht : ¬((t.id == some i) = true) := by
        simpa using h t (List.mem_cons_self t ts)
      simp only [update_status_go, if_neg ht,
        ih (fun x hx => h x (List.mem_cons_of_mem t hx))]

lemma update_status_go_found (i : Int) (st now : String) (l₁ l₂ : List Task)
    (m : Task) (h1 : ∀ t ∈ l₁, t.id ≠ some i) (hm : m.id = some i) :
    update_status_go i st now (l₁ ++ m :: l₂) =
      (l₁ ++ (if st = "start" then
                { m with status := "in_progress", started_at := some now }
              else if st = "finish" then
                { m with status := "done", finished_at := some now }
              else m) :: l₂, true, some true) := by
  induction l₁ with
  | nil =>
      simp [update_status_go, hm]
  | cons a l ih =>
      have ha : ¬((a.id == some i) = true) := by
        simpa using h1 a (List.mem_cons_self a l)
      have ihh := ih (fun t ht => h1 t (List.mem_cons_of_mem a ht))
      simp only [List.cons_append]
      simp only [update_status_go, if_neg ha, ihh]

/-! ### Facts about the query pipeline -/

lemma foldl_filter_aux (p : Task → Bool) (tasks : List Task) :
    ∀ acc : List Task,
      tasks.foldl (fun acc t => if p t then acc ++ [t] else acc) acc =
        acc ++ tasks.filter p := by
  induction tasks with
  | nil => intro acc; simp
  | cons t ts ih =>
      intro acc
      by_cases h : p t = true <;>
        simp [List.foldl_cons, h, ih, List.filter_cons]

lemma filterLoop_eq_filter (p : Task → Bool) (tasks : List Task) :
    filterLoop p tasks = tasks.filter p := by
  simpa using foldl_filter_aux p tasks []

lemma charListLe_total (as bs : List Char) :
    charListLe as bs = true ∨ charListLe bs as = true := by
  induction as generalizing bs with
  | nil => left; rfl
  | cons a as ih =>
      cases bs with
      | nil => right; rfl
      | cons b bs =>
          rcases lt_trichotomy a b with h | h | h
          · left; simp [charListLe, h]
          · subst h
            rcases ih bs with h' | h'
            · left; simp [charListLe, lt_irrefl, h']
            · right; simp [charListLe, lt_irrefl, h']
          · right; simp [charListLe, h]

lemma charListLe_trans (as : List Char) : ∀ bs cs : List Char,
    charListLe as bs = true → charListLe bs cs = true →
    charListLe as cs = true := by
  induction as with
  | nil => intro bs cs _ _; rfl
  | cons a as ih =>
      intro bs cs h1 h2
      cases bs with
      | nil => simp [charListLe] at h1
      | cons b bs =>
          cases cs with
          | nil => simp [charListLe] at h2
          | cons c cs =>
              by_cases hab : a < b
              · by_cases hbc : b < c
                · simp [charListLe, lt_trans hab hbc]
                · by_cases hcb : c < b
                  · simp [charListLe, hbc, hcb] at h2
                  · have hbc' : b = c := le_antisymm (not_lt.mp hcb) (not_lt.mp hbc)
                    subst hbc'
                    simp [charListLe, hab]
              · by_cases hba : b < a
                · simp [charListLe, hab, hba] at h1
                · have hab' : a = b := le_antisymm (not_lt.mp hba) (not_lt.mp hab)
                  subst hab'
                  simp only [charListLe, lt_irrefl, if_false] at h1
                  by_cases hac : a < c
                  · simp [charListLe, hac]
                  · by_cases hca : c < a
                    · simp [charListLe, hac, hca] at h2
                    · have hac' : a = c := le_antisymm (not_lt.mp hca) (not_lt.mp hac)
                      subst hac'
                      simp only [charListLe, lt_irrefl, if_false] at h2 ⊢
                      exact ih bs cs h1 h2

/-! ### The id invariant along a session -/

lemma idsOk_new_task (s s' : List Task) (t d n : String) (tg : List String)
    (h : IdsOk s) (hstep : new_task t d tg n s = .ok s') : IdsOk s' := by
  obtain ⟨l, hmap, hpw⟩ := h
  have hhi : ∃ m, highestId s = .ok m ∧ ∀ x ∈ l, x ≤ m := by
    cases l with
    | nil =>
        have hs : s = [] := by simpa using hmap
        subst hs
        exact ⟨0, rfl, by simp⟩
    | cons b bs =>
        obtain ⟨m, hok, _, hub⟩ :=
          highestId_spec s (b :: bs) hmap (List.cons_ne_nil b bs)
        exact ⟨m, hok, hub⟩
  obtain ⟨m, hok, hub⟩ := hhi
  rw [new_task, hok] at hstep
  have hs' : s' = s ++
      [{ id := some (m + 1), title := t, desc := d, status := "todo",
         tags := tg, created_at := some n, started_at := none,
         finished_at := none }] := by
    cases hstep
    rfl
  subst hs'
  refine ⟨l ++ [m + 1], ?_, ?_⟩
  · simp [hmap]
  · rw [List.pairwise_append]
    refine ⟨hpw, List.pairwise_singleton _ _, ?_⟩
    intro x hx y hy
    rw [List.mem_singleton] at hy
    subst hy
    exact lt_of_le_of_lt (hub x hx) (by omega)

lemma idsOk_delete (s : List Task) (i : Int) (h : IdsOk s) :
    IdsOk (delete_task i s).1 := by
  obtain ⟨l, hmap, hpw⟩ := h
  cases hf : s.find? (fun t => t.id == some i) with
  | some t =>
      obtain ⟨l', hl', hsub⟩ := removeFirstById_map_some i s l hmap
      exact ⟨l', by simp [delete_task, hf, hl'], List.Pairwise.sublist hsub hpw⟩
  | none => exact ⟨l, by simp [delete_task, hf, hmap], hpw⟩

lemma idsOk_runOps (ops : List Op) : ∀ s s' : List Task,
    IdsOk s → runOps s ops = .ok s' → IdsOk s' := by
  induction ops with
  | nil =>
      intro s s' h hr
      simp only [runOps, Except.ok.injEq] at hr
      exact hr ▸ h
  | cons op ops ih =>
      intro s s' h hr
      cases hstep : stepOp s op with
      | error e => simp [runOps, hstep] at hr
      | ok s₁ =>
          simp only [runOps, hstep] at hr
          refine ih s₁ s' ?_ hr
          cases op with
          | create t d tg n => exact idsOk_new_task s s₁ t d n tg h hstep
          | delete i =>
              have h1 : s₁ = (delete_task i s).1 := by
                simpa [stepOp] using hstep.symm
              exact h1 ▸ idsOk_delete s i h

/-! ### Exact ids for delete-free sessions -/

lemma mem_idsUpTo_le (n : Nat) (x : Int) (hx : x ∈ idsUpTo n) : x ≤ (n : Int) := by
  induction n with
  | zero => simp [idsUpTo] at hx
  | succ k ih =>
      simp only [idsUpTo, List.mem_append, List.mem_singleton] at hx
      rcases hx with h | h
      · have := ih h
        push_cast
        omega
      · subst h
        push_cast
        omega

lemma self_mem_idsUpTo (k : Nat) : ((k : Int) + 1) ∈ idsUpTo (k + 1) := by
  simp [idsUpTo]

lemma highestId_idsUpTo (s : List Task) (n : Nat)
    (hmap : s.map Task.id = (idsUpTo n).map some) :
    highestId s = .ok (n : Int) := by
  cases n with
  | zero =>
      have hs : s = [] := by simpa [idsUpTo] using hmap
      subst hs
      rfl
  | succ k =>
      have hne : idsUpTo (k + 1) ≠ [] := by simp [idsUpTo]
      obtain ⟨m, hok, hmem, hub⟩ := highestId_spec s (idsUpTo (k + 1)) hmap hne
      have h1 : m ≤ ((k + 1 : Nat) : Int) := mem_idsUpTo_le (k + 1) m hmem
      have h2 : ((k : Int) + 1) ≤ m := hub _ (self_mem_idsUpTo k)
      have hm : m = ((k + 1 : Nat) : Int) := by
        push_cast at h1 h2 ⊢
        omega
      rw [hok, hm]

lemma runOps_creates (ops : List Op) : ∀ (s : List Task) (n : Nat),
    (∀ op ∈ ops, op.isCreate = true) →
    s.map Task.id = (idsUpTo n).map some →
    ∀ s', runOps s ops = .ok s' →
    s'.map Task.id = (idsUpTo (n + ops.length)).map some := by
  induction ops with
  | nil =>
      intro s n _ hmap s' hr
      simp only [runOps, Except.ok.injEq] at hr
      subst hr
      simpa using hmap
  | cons op ops ih =>
      intro s n hall hmap s' hr
      cases op with
      | delete i =>
          have := hall _ (List.mem_cons_self _ _)
          simp [Op.isCreate] at this
      | create t d tg now =>
          have hhi : highestId s = .ok (n : Int) := highestId_idsUpTo s n hmap
          have hstep : stepOp s (.create t d tg now) = .ok (s ++
              [{ id := some ((n : Int) + 1), title := t, desc := d,
                 status := "todo", tags := tg, created_at := some now,
                 started_at := none, finished_at := none }]) := by
            simp [stepOp, new_task, hhi]
          simp only [runOps, hstep] at hr
          have hmap' : (s ++
              [({ id := some ((n : Int) + 1), title := t, desc := d,
                  status := "todo", tags := tg, created_at := some now,
                  started_at := none, finished_at := none } : Task)]).map Task.id =
              (idsUpTo (n + 1)).map some := by
            simp [hmap, idsUpTo]
          have hres := ih _ (n + 1)
            (fun o ho => hall o (List.mem_cons_of_mem _ ho)) hmap' s' hr
          have harith : n + 1 + ops.length =
              n + (Op.create t d tg now :: ops).length := by
            simp [List.length_cons]
            omega
          rw [harith] at hres
          exact hres

/-! ### Sortedness puts unset timestamps first -/

lemma sorted_dropWhile_not_none (k : SortKey) (l : List Task)
    (hpw : l.Pairwise (fun a b => pyStrLe (sort_key k a) (sort_key k b) = true))
    (hreal : ∀ t ∈ l, Task.attr k t ≠ none →
      pyStrLe (sort_key k t) "0000-00-00 00:00" = false) :
    ∀ t ∈ l.dropWhile (fun t => (Task.attr k t).isNone), Task.attr k t ≠ none := by
  induction l with
  | nil => intro t ht; simp [List.dropWhile] at ht
  | cons a l ih =>
      rw [List.pairwise_cons] at hpw
      obtain ⟨ha, hl⟩ := hpw
      by_cases hna : (Task.attr k a).isNone = true
      · rw [@List.dropWhile_cons_of_pos _ (fun t => (Task.attr k t).isNone) a l hna]
        exact ih hl (fun t ht => hreal t (List.mem_cons_of_mem a ht))
      · rw [@List.dropWhile_cons_of_neg _ (fun t => (Task.attr k t).isNone) a l hna]
        intro t ht
        rcases List.mem_cons.mp ht with rfl | ht'
        · simpa [Option.isNone_iff_eq_none] using hna
        · intro hattr
          have hle := ha t ht'
          have hkey : sort_key k t = "0000-00-00 00:00" := by
            simp [sort_key, hattr]
          rw [hkey] at hle
          have hna' : Task.attr k a ≠ none := by
            simpa [Option.isNone_iff_eq_none] using hna
          rw [hreal a (List.mem_cons_self a l) hna'] at hle
          cases hle

/-! ### The claims -/

/-- C1, refuted as stated: in the session create A, create B, delete 2,
create C, the id 2 is assigned to task B and then assigned again to the
later-created task C after B's deletion, because `new_task` recomputes
max-existing-id + 1 and the freed maximum becomes available again. -/
theorem c1_counterexample :
    assignedIds [] [Op.create "A" "" [] "2024-01-01 10:00",
      Op.create "B" "" [] "2024-01-01 10:01", Op.delete 2,
      Op.create "C" "" [] "2024-01-01 10:02"] =
      .ok [some 1, some 2, some 2] ∧
    ¬ ([some 1, some 2, some 2] : List (Option Int)).Nodup :=
  ⟨rfl, by decide⟩

/-- C1 (amended): along any session of create and delete operations started
from an empty store, the ids present in the collection are always pairwise
distinct — each creation assigns an id strictly greater than every id then
present — but an id freed by deleting the current maximum can be assigned
again to a later-created task. -/
theorem c1_ids_unique (ops : List Op) (s : List Task)
    (h : runOps [] ops = .ok s) : (s.map Task.id).Nodup := by
  obtain ⟨l, hmap, hpw⟩ := idsOk_runOps ops [] s ⟨[], rfl, List.Pairwise.nil⟩ h
  rw [hmap]
  have hnd : l.Nodup := hpw.imp ne_of_lt
  exact hnd.map (Option.some_injective Int)

/-- Witness for C1's amended theorem at a one-creation session. -/
theorem c1_ids_unique_witness :
    (([{ id := some 1, title := "A", desc := "", status := "todo", tags := [],
         created_at := some "2024-01-01 10:00", started_at := none,
         finished_at := none }] : List Task).map Task.id).Nodup :=
  c1_ids_unique [Op.create "A" "" [] "2024-01-01 10:00"] _ rfl

/-- C2, refuted as stated: after create A, create B, delete 1, the collection
holds exactly the id 2, which neither starts at 1 nor is gap-free from 1. -/
theorem c2_counterexample :
    (runOps [] [Op.create "A" "" [] "2024-01-01 10:00",
      Op.create "B" "" [] "2024-01-01 10:01", Op.delete 1]).map
        (fun s => s.map Task.id) = .ok [some 2] ∧
    [some (2 : Int)] ≠ [some 1] :=
  ⟨rfl, by decide⟩

/-- C2 (amended): along any session from an empty store the ids present in
the collection are strictly increasing in collection order; when the session
consists of create calls only, they are exactly 1, 2, …, n with no gaps
(each create assigns (maximum existing id, default 0) + 1), but interleaved
deletes can remove ids from the middle, so gaps and a start above 1 are
possible. -/
theorem c2_ids_increasing (ops : List Op) (s : List Task)
    (h : runOps [] ops = .ok s) :
    (∃ l : List Int, s.map Task.id = l.map some ∧ l.Pairwise (· < ·)) ∧
    ((∀ op ∈ ops, op.isCreate = true) →
      s.map Task.id = (idsUpTo ops.length).map some) := by
  refine ⟨idsOk_runOps ops [] s ⟨[], rfl, List.Pairwise.nil⟩ h, fun hall => ?_⟩
  simpa using runOps_creates ops [] 0 hall (by simp [idsUpTo]) s h

/-- Witness for C2's amended theorem at a two-creation session. -/
theorem c2_ids_increasing_witness :
    (∃ l : List Int,
      ([{ id := some 1, title := "A", desc := "", status := "todo", tags := [],
          created_at := some "2024-01-01 10:00", started_at := none,
          finished_at := none },
        { id := some 2, title := "B", desc := "", status := "todo", tags := [],
          created_at := some "2024-01-01 10:01", started_at := none,
          finished_at := none }] : List Task).map Task.id = l.map some ∧
        l.Pairwise (· < ·)) ∧
    ((∀ op ∈ [Op.create "A" "" [] "2024-01-01 10:00",
        Op.create "B" "" [] "2024-01-01 10:01"], op.isCreate = true) →
      ([{ id := some 1, title := "A", desc := "", status := "todo", tags := [],
          created_at := some "2024-01-01 10:00", started_at := none,
          finished_at := none },
        { id := some 2, title := "B", desc := "", status := "todo", tags := [],
          created_at := some "2024-01-01 10:01", started_at := none,
          finished_at := none }] : List Task).map Task.id =
        (idsUpTo ([Op.create "A" "" [] "2024-01-01 10:00",
          Op.create "B" "" [] "2024-01-01 10:01"].length)).map some) :=
  c2_ids_increasing [Op.create "A" "" [] "2024-01-01 10:00",
    Op.create "B" "" [] "2024-01-01 10:01"] _ rfl

/-- C3, refuted as stated: the store holds a task with id 1, yet
`delete_task 1` does not return `True` — its Python return value is `None`
on every path; the outcome is only reported through a printed message. -/
theorem c3_counterexample :
    (∃ t ∈ [sampleDone], t.id = some 1) ∧
    (delete_task 1 [sampleDone]).2.2 ≠ some true := by
  exact ⟨by decide, by decide⟩

/-- C3 (amended): `delete_task` always returns `None`; it removes a task and
rewrites the file exactly when a task with the given id exists, and reports
that outcome only through its printed success / not-found message (modelled
by the save flag, which is `true` iff a match was found). -/
theorem c3_delete_reports (i : Int) (tasks : List Task) :
    (delete_task i tasks).2.2 = none ∧
    ((delete_task i tasks).2.1 = true ↔ ∃ t ∈ tasks, t.id = some i) := by
  cases hf : tasks.find? (fun t => t.id == some i) with
  | some t =>
      refine ⟨by simp [delete_task, hf], ?_⟩
      simp only [delete_task, hf]
      constructor
      · intro _
        exact ⟨t, List.mem_of_find?_eq_some hf, by simpa using List.find?_some hf⟩
      · intro _
        trivial
  | none =>
      refine ⟨by simp [delete_task, hf], ?_⟩
      simp only [delete_task, hf]
      constructor
      · intro hfalse
        cases hfalse
      · rintro ⟨t, ht, hid⟩
        have := List.find?_eq_none.mp hf t ht
        simp [hid] at this

/-- C4, refuted as stated: on a collection loaded from a record without an
`id` key (so the id is null), `new_task` propagates an uncaught `TypeError`
from the `highest_id` computation — creation has no broad exception
handler. -/
theorem c4_counterexample :
    new_task "T" "D" [] "2024-01-02 09:00" [nullIdTask] =
      .error "TypeError: unsupported operand type(s) for +: NoneType and int" :=
  rfl

/-- C4 (amended): lookup, delete, status transition and query are total, and
creation completes normally provided every loaded task has a non-null id;
only `new_task` on a collection containing a null id propagates an
exception. -/
theorem c4_create_ok_of_ids_present (title desc : String) (tags : List String)
    (now : String) (tasks : List Task) (h : ∀ t ∈ tasks, t.id ≠ none) :
    ∃ s', new_task title desc tags now tasks = .ok s' := by
  obtain ⟨l, hmap⟩ := map_id_all_some tasks h
  cases l with
  | nil =>
      have hs : tasks = [] := by simpa using hmap
      subst hs
      exact ⟨_, rfl⟩
  | cons b bs =>
      obtain ⟨m, hok, _, _⟩ :=
        highestId_spec tasks (b :: bs) hmap (List.cons_ne_nil b bs)
      exact ⟨_, by rw [new_task, hok]⟩

/-- Witness for C4's amended theorem on a store with one well-formed task. -/
theorem c4_create_ok_of_ids_present_witness :
    ∃ s', new_task "T" "D" [] "2024-01-02 09:00" [sampleDone] = .ok s' :=
  c4_create_ok_of_ids_present "T" "D" [] "2024-01-02 09:00" [sampleDone]
    (by decide)

/-- C5, refuted as stated: `sampleDone` already carries
`started_at = "2024-01-01 10:05"`, yet a further start transition overwrites
it with the new timestamp — `started_at` is not written exactly once. -/
theorem c5_counterexample :
    sampleDone.started_at = some "2024-01-01 10:05" ∧
    (update_status 1 "start" "2024-01-02 08:00" [sampleDone]).1.map
      Task.started_at = [some "2024-01-02 08:00"] ∧
    some "2024-01-02 08:00" ≠ sampleDone.started_at :=
  ⟨rfl, rfl, by decide⟩

/-- C5 (amended): every start transition assigns `started_at := now`,
overwriting any earlier value, and sets status `in_progress`; a finish
transition sets `finished_at := now` and status `done` while leaving
`started_at` (and every other field) unchanged. -/
theorem c5_start_overwrites (i : Int) (now : String) (l₁ l₂ : List Task)
    (m : Task) (hpos : 0 < i) (h1 : ∀ t ∈ l₁, t.id ≠ some i)
    (hm : m.id = some i) :
    update_status i "start" now (l₁ ++ m :: l₂) =
      (l₁ ++ { m with status := "in_progress", started_at := some now } :: l₂,
       true, some true) ∧
    update_status i "finish" now (l₁ ++ m :: l₂) =
      (l₁ ++ { m with status := "done", finished_at := some now } :: l₂,
       true, some true) := by
  have hguard : ¬ (i ≤ 0) := by omega
  constructor
  · rw [update_status, if_neg hguard,
      update_status_go_found i "start" now l₁ l₂ m h1 hm]
    simp
  · rw [update_status, if_neg hguard,
      update_status_go_found i "finish" now l₁ l₂ m h1 hm]
    simp

/-- Witness for C5's amended theorem on a singleton store. -/
theorem c5_start_overwrites_witness :
    update_status 1 "start" "2024-01-02 08:00" ([] ++ sampleDone :: []) =
      ([] ++ { sampleDone with
          status := "in_progress", started_at := some "2024-01-02 08:00" } :: [],
       true, some true) ∧
    update_status 1 "finish" "2024-01-02 08:00" ([] ++ sampleDone :: []) =
      ([] ++ { sampleDone with
          status := "done", finished_at := some "2024-01-02 08:00" } :: [],
       true, some true) :=
  c5_start_overwrites 1 "2024-01-02 08:00" [] [] sampleDone (by decide)
    (by decide) (by decide)

/-- C6: a start transition on a task whose status is `done` sets its status
to `in_progress` and a fresh `started_at` without clearing `finished_at`
(no forward-only validation), and a transition on a positive id absent from
the collection returns `False` without saving. -/
theorem c6_start_on_done_and_not_found (tasks l₁ l₂ : List Task) (m : Task)
    (i j : Int) (now act : String) (hipos : 0 < i) (hjpos : 0 < j)
    (htasks : tasks = l₁ ++ m :: l₂) (h1 : ∀ t ∈ l₁, t.id ≠ some i)
    (hm : m.id = some i) (hdone : m.status = "done")
    (hj : ∀ t ∈ tasks, t.id ≠ some j) :
    update_status i "start" now tasks =
      (l₁ ++ { m with status := "in_progress", started_at := some now } :: l₂,
       true, some true) ∧
    ({ m with status := "in_progress", started_at := some now } : Task).finished_at
      = m.finished_at ∧
    update_status j act now tasks = (tasks, false, some false) := by
  subst htasks
  refine ⟨?_, rfl, ?_⟩
  · rw [update_status, if_neg (by omega : ¬ (i ≤ 0)),
      update_status_go_found i "start" now l₁ l₂ m h1 hm]
    simp
  · rw [update_status, if_neg (by omega : ¬ (j ≤ 0)),
      update_status_go_not_found j act now _ hj]

/-- Witness for C6 on a singleton store holding a done task with id 1. -/
theorem c6_start_on_done_and_not_found_witness :
    update_status 1 "start" "2024-01-02 08:00" [sampleDone] =
      ([] ++ { sampleDone with
          status := "in_progress", started_at := some "2024-01-02 08:00" } :: [],
       true, some true) ∧
    ({ sampleDone with
        status := "in_progress",
        started_at := some "2024-01-02 08:00" } : Task).finished_at
      = sampleDone.finished_at ∧
    update_status 2 "start" "2024-01-02 08:00" [sampleDone] =
      ([sampleDone], false, some false) :=
  c6_start_on_done_and_not_found [sampleDone] [] [] sampleDone 1 2
    "2024-01-02 08:00" "start" (by decide) (by decide) rfl (by decide)
    (by decide) (by decide) (by decide)

/-- C7: a query with a (non-empty) status argument and no tag, search or
sort returns exactly the tasks whose status equals the given value, in their
stored relative order — it is the list filter by status equality. -/
theorem c7_status_filter (s : String) (tasks : List Task) (hs : s ≠ "") :
    list_tasks (some s) none none none tasks =
      tasks.filter (fun t => t.status == s) := by
  simp [list_tasks, hs, filterLoop_eq_filter]

/-- Witness for C7 at status `done` on a two-task store. -/
theorem c7_status_filter_witness :
    list_tasks (some "done") none none none [sampleDone, sampleTodo] =
      [sampleDone, sampleTodo].filter (fun t => t.status == "done") :=
  c7_status_filter "done" [sampleDone, sampleTodo] (by decide)

/-- C8: a query sorted by one of the three timestamp fields returns a
permutation of the stored tasks that is non-decreasing in the sort key,
where an absent timestamp counts as the sentinel `0000-00-00 00:00`; when
every set value of that field compares above the sentinel (as every real
timestamp does), the tasks lacking the field form a prefix of the result. -/
theorem c8_sort_by_timestamp (k : SortKey) (tasks : List Task)
    (hreal : ∀ t ∈ tasks, Task.attr k t ≠ none →
      pyStrLe (sort_key k t) "0000-00-00 00:00" = false) :
    (list_tasks none none (some k) none tasks).Perm tasks ∧
    List.Sorted (fun a b => pyStrLe (sort_key k a) (sort_key k b) = true)
      (list_tasks none none (some k) none tasks) ∧
    ∃ l₁ l₂ : List Task,
      list_tasks none none (some k) none tasks = l₁ ++ l₂ ∧
      (∀ t ∈ l₁, Task.attr k t = none) ∧
      (∀ t ∈ l₂, Task.attr k t ≠ none) := by
  haveI : IsTotal Task (fun a b => pyStrLe (sort_key k a) (sort_key k b) = true) :=
    ⟨fun a b => charListLe_total _ _⟩
  haveI : IsTrans Task (fun a b => pyStrLe (sort_key k a) (sort_key k b) = true) :=
    ⟨fun a b c => charListLe_trans _ _ _⟩
  have hEq : list_tasks none none (some k) none tasks =
      List.insertionSort
        (fun a b => pyStrLe (sort_key k a) (sort_key k b) = true) tasks := by
    simp [list_tasks]
  have hperm := List.perm_insertionSort
    (fun a b => pyStrLe (sort_key k a) (sort_key k b) = true) tasks
  have hsorted := List.sorted_insertionSort
    (fun a b => pyStrLe (sort_key k a) (sort_key k b) = true) tasks
  rw [hEq]
  refine ⟨hperm, hsorted, ?_⟩
  refine ⟨(List.insertionSort
      (fun a b => pyStrLe (sort_key k a) (sort_key k b) = true) tasks).takeWhile
        (fun t => (Task.attr k t).isNone),
    (List.insertionSort
      (fun a b => pyStrLe (sort_key k a) (sort_key k b) = true) tasks).dropWhile
        (fun t => (Task.attr k t).isNone),
    (List.takeWhile_append_dropWhile _ _).symm, ?_, ?_⟩
  · intro t ht
    have hp := List.mem_takeWhile_imp ht
    simpa [Option.isNone_iff_eq_none] using hp
  · exact sorted_dropWhile_not_none k _ hsorted
      (fun t ht => hreal t (hperm.mem_iff.mp ht))

/-- Witness for C8: sorting by `created_at` a store holding one task with a
real timestamp and one task without the field. -/
theorem c8_sort_by_timestamp_witness :
    (list_tasks none none (some SortKey.created_at) none
      [sampleDone, sampleTodo]).Perm [sampleDone, sampleTodo] ∧
    List.Sorted (fun a b => pyStrLe (sort_key SortKey.created_at a)
        (sort_key SortKey.created_at b) = true)
      (list_tasks none none (some SortKey.created_at) none
        [sampleDone, sampleTodo]) ∧
    ∃ l₁ l₂ : List Task,
      list_tasks none none (some SortKey.created_at) none
        [sampleDone, sampleTodo] = l₁ ++ l₂ ∧
      (∀ t ∈ l₁, Task.attr SortKey.created_at t = none) ∧
      (∀ t ∈ l₂, Task.attr SortKey.created_at t ≠ none) :=
  c8_sort_by_timestamp SortKey.created_at [sampleDone, sampleTodo] (by decide)

/-- C9: deleting an id that is present (here: the first match, the only one
when ids are unique) removes exactly that task, keeps every other record in
place, shrinks the collection by exactly one and rewrites the file; deleting
an absent id leaves the collection unchanged, does not save, and never
raises. -/
theorem c9_delete_frame (tasks l₁ l₂ : List Task) (m : Task) (i j : Int)
    (htasks : tasks = l₁ ++ m :: l₂) (h1 : ∀ t ∈ l₁, t.id ≠ some i)
    (hm : m.id = some i) (hj : ∀ t ∈ tasks, t.id ≠ some j) :
    delete_task i tasks = (l₁ ++ l₂, true, none) ∧
    tasks.length = (l₁ ++ l₂).length + 1 ∧
    delete_task j tasks = (tasks, false, none) := by
  subst htasks
  refine ⟨?_, by simp [Nat.add_assoc], ?_⟩
  · have hfind := find?_id_append i l₁ l₂ m h1 hm
    simp only [delete_task, hfind]
    rw [removeFirstById_append i l₁ l₂ m h1 hm]
  · have hfind : (l₁ ++ m :: l₂).find? (fun t => t.id == some j) = none :=
      List.find?_eq_none.mpr (fun x hx => by simpa using hj x hx)
    simp [delete_task, hfind]

/-- Witness for C9: deleting id 2 from a two-task store, and probing the
absent id 7. -/
theorem c9_delete_frame_witness :
    delete_task 2 [sampleDone, sampleTodo] = ([sampleDone] ++ [], true, none) ∧
    ([sampleDone, sampleTodo] : List Task).length =
      ([sampleDone] ++ ([] : List Task)).length + 1 ∧
    delete_task 7 [sampleDone, sampleTodo] =
      ([sampleDone, sampleTodo], false, none) :=
  c9_delete_frame [sampleDone, sampleTodo] [sampleDone] [] sampleTodo 2 7 rfl
    (by decide) (by decide) (by decide)

/-- C10: a status transition on a present (positive) id with an action other
than `start` and `finish` leaves the matching task — and the whole
collection — unchanged, still rewrites the backing file, and returns `True`:
unrecognized actions are reported as successes. -/
theorem c10_unknown_action (tasks l₁ l₂ : List Task) (m : Task) (i : Int)
    (act now : String) (hpos : 0 < i) (hstart : act ≠ "start")
    (hfinish : act ≠ "finish") (htasks : tasks = l₁ ++ m :: l₂)
    (h1 : ∀ t ∈ l₁, t.id ≠ some i) (hm : m.id = some i) :
    update_status i act now tasks = (tasks, true, some true) := by
  subst htasks
  rw [update_status, if_neg (by omega : ¬ (i ≤ 0)),
    update_status_go_found i act now l₁ l₂ m h1 hm]
  simp [hstart, hfinish]

/-- Witness for C10 with the action string `view` on a singleton store. -/
theorem c10_unknown_action_witness :
    update_status 1 "view" "2024-01-02 08:00" [sampleDone] =
      ([sampleDone], true, some true) :=
  c10_unknown_action [sampleDone] [] [] sampleDone 1 "view" "2024-01-02 08:00"
    (by decide) (by decide) (by decide) rfl (by decide) (by decide)

end Tasks
